import Mathlib

/-!
Verification development for the gitbib citation/cross-reference subsystem.

The definitions below are a shallow embedding of the Python sources:
  gitbib/description.py   (in-text citation scanner, paragraph splitting)
  gitbib/gitbib.py        (IN_TEXT_CITATION_RE, deprecated descendants walk)
  gitbib/gitbib2.py       (entry model, identifier indices, DOI-cite
                           resolution, citation graph, per-file secondary sets)

Python dictionaries are embedded as insertion-ordered association lists with
first-match lookup.  Fallible code (KeyError, raise ValueError) is embedded
with Except.  Recursions whose termination is the point at issue are embedded
with an explicit fuel parameter.
-/

namespace Gitbib

/-! ## Association-list model of Python dict -/

def dlookup {α : Type} : List (String × α) → String → Option α
  | [], _ => none
  | (k, v) :: rest, key => if k = key then some v else dlookup rest key

def dmem {α : Type} (d : List (String × α)) (k : String) : Bool :=
  (dlookup d k).isSome

theorem dlookup_append {α : Type} (l1 l2 : List (String × α)) (k : String) :
    dlookup (l1 ++ l2) k =
      match dlookup l1 k with
      | some v => some v
      | none => dlookup l2 k := by
  induction l1 with
  | nil => simp [dlookup]
  | cons p rest ih =>
    obtain ⟨k1, v1⟩ := p
    by_cases h : k1 = k <;> simp [dlookup, h, ih]

/-! ## In-text citation scanner

Character classes of IN_TEXT_CITATION_RE (gitbib/gitbib.py line 31):

  IN_TEXT_CITATION_RE =
    r"\[((doi\:[\w\.]+\/[\w\.]+)|(arxiv\:\d+\.\d+)|([\w\-]+))(\=(\d+))?\](?!\()"

The regex word class is modelled on ASCII, which covers every input the
repository's own data and tests exercise. -/

def wordChar (c : Char) : Bool := c.isAlphanum || c = '_'

def wordDotChar (c : Char) : Bool := wordChar c || c = '.'

def wordHyphenChar (c : Char) : Bool := wordChar c || c = '-'

/-- Parsed payload of one citation-marker match: contents of group 1 and,
when the `=digits` suffix is present, the raw digit string of group 6. -/
structure CiteMatch where
  ident : List Char
  numStr : Option (List Char)
deriving DecidableEq, Repr

/-- Branch `doi\:[\w\.]+\/[\w\.]+` of group 1, applied to the characters
after the literal `doi:`.  Returns the whole group-1 text and the rest. -/
def matchDoiBody (cs : List Char) : Option (List Char × List Char) :=
  if (cs.takeWhile wordDotChar).isEmpty then none
  else
    match cs.dropWhile wordDotChar with
    | '/' :: cs2 =>
      if (cs2.takeWhile wordDotChar).isEmpty then none
      else some ('d' :: 'o' :: 'i' :: ':' ::
                   (cs.takeWhile wordDotChar ++ '/' :: cs2.takeWhile wordDotChar),
                 cs2.dropWhile wordDotChar)
    | _ => none

/-- Branch `arxiv\:\d+\.\d+` of group 1, applied to the characters after the
literal `arxiv:`. -/
def matchArxivBody (cs : List Char) : Option (List Char × List Char) :=
  if (cs.takeWhile Char.isDigit).isEmpty then none
  else
    match cs.dropWhile Char.isDigit with
    | '.' :: cs2 =>
      if (cs2.takeWhile Char.isDigit).isEmpty then none
      else some ('a' :: 'r' :: 'x' :: 'i' :: 'v' :: ':' ::
                   (cs.takeWhile Char.isDigit ++ '.' :: cs2.takeWhile Char.isDigit),
                 cs2.dropWhile Char.isDigit)
    | _ => none

/-- Branch `[\w\-]+` of group 1. -/
def matchPlainBody (cs : List Char) : Option (List Char × List Char) :=
  if (cs.takeWhile wordHyphenChar).isEmpty then none
  else some (cs.takeWhile wordHyphenChar, cs.dropWhile wordHyphenChar)

/-- Group 1 of IN_TEXT_CITATION_RE.  The alternation is leftmost-first; when
the content starts with the literal `doi:` (resp. `arxiv:`) and that branch
fails, the bare-identifier branch necessarily fails as well (it would stop at
the `:` which can satisfy neither `\=` nor `\]`), so no fallthrough is
needed. -/
def matchGroup1 : List Char → Option (List Char × List Char)
  | 'd' :: 'o' :: 'i' :: ':' :: cs1 => matchDoiBody cs1
  | 'a' :: 'r' :: 'x' :: 'i' :: 'v' :: ':' :: cs1 => matchArxivBody cs1
  | cs => matchPlainBody cs

/-- Negative lookahead `(?!\()`. -/
def noParen : List Char → Bool
  | '(' :: _ => false
  | _ => true

/-- Suffix `(\=(\d+))?\](?!\()` after group 1.  Returns group 6 (when the
optional group participates) and the characters after the closing bracket. -/
def matchTail : List Char → Option (Option (List Char) × List Char)
  | '=' :: cs =>
    if (cs.takeWhile Char.isDigit).isEmpty then none
    else
      match cs.dropWhile Char.isDigit with
      | ']' :: rest =>
        if noParen rest then some (some (cs.takeWhile Char.isDigit), rest) else none
      | _ => none
  | ']' :: rest => if noParen rest then some (none, rest) else none
  | _ => none

/-- Attempt of the whole pattern at the current position. -/
def matchCitationAt : List Char → Option (CiteMatch × List Char)
  | '[' :: cs =>
    match matchGroup1 cs with
    | none => none
    | some (g, r1) =>
      match matchTail r1 with
      | none => none
      | some (numOpt, rest) => some (⟨g, numOpt⟩, rest)
  | _ => none

/-- Leftmost match of IN_TEXT_CITATION_RE: the text before the match, the
match, and the text after it. -/
def findMatch : List Char → Option (List Char × CiteMatch × List Char)
  | [] => none
  | c :: cs =>
    match matchCitationAt (c :: cs) with
    | some (m, rest) => some ([], m, rest)
    | none =>
      match findMatch cs with
      | some (pre, m, rest) => some (c :: pre, m, rest)
      | none => none

/-- Text consumed by the optional `=digits` group: `=` digits when it
participates, nothing otherwise. -/
def tailSpan : Option (List Char) → List Char
  | some ds => '=' :: ds
  | none => []

/-- Span of text consumed by a match: `[` ident (`=` digits)? `]`. -/
def matchedSpan (m : CiteMatch) : List Char :=
  '[' :: (m.ident ++ tailSpan m.numStr ++ [']'])

/-- Python `int` on a digit string. -/
def listToNat (ds : List Char) : Nat :=
  ds.foldl (fun a c => a * 10 + (c.toNat - '0'.toNat)) 0

/-! ## Description tokens (gitbib/description.py classes Text / Citation /
Paragraph / Description) -/

inductive DescriptionPart
  | Text (content : List Char)
  | Citation (ident : List Char) (num : Option Nat)
deriving DecidableEq, Repr

structure Paragraph where
  parts : List DescriptionPart
deriving DecidableEq, Repr

structure Description where
  paragraphs : List Paragraph
deriving DecidableEq, Repr

/-- Loop body of `parse_paragraph`: `re.split(IN_TEXT_CITATION_RE, text)`
interleaves the text between matches with the six capture groups of each
match; the loop re-assembles that stream into Text and Citation tokens
(`Citation(i, int(n))`, with `n = None` when group 6 did not participate).
The fuel argument bounds the number of matches; `scan` below supplies a
value that can never run out. -/
def scanF : Nat → List Char → List DescriptionPart
  | 0, l => [DescriptionPart.Text l]
  | fuel + 1, l =>
    match findMatch l with
    | none => [DescriptionPart.Text l]
    | some (pre, m, rest) =>
      DescriptionPart.Text pre ::
        DescriptionPart.Citation m.ident (m.numStr.map listToNat) :: scanF fuel rest

def scan (l : List Char) : List DescriptionPart := scanF (l.length + 1) l

/-- The digit strings (group 6) of the matches, in scan order; used to state
when `int`-then-`str` round-trips them. -/
def citeNumsF : Nat → List Char → List (List Char)
  | 0, _ => []
  | fuel + 1, l =>
    match findMatch l with
    | none => []
    | some (_, m, rest) => m.numStr.toList ++ citeNumsF fuel rest

def cite_nums (l : List Char) : List (List Char) := citeNumsF (l.length + 1) l

/-- The `re.sub` of a newline by a space at the top of `parse_paragraph`. -/
def normalize (l : List Char) : List Char :=
  l.map (fun c => if c = '\n' then ' ' else c)

/-- parse_paragraph (gitbib/description.py lines 81-102). -/
def parse_paragraph (text : List Char) : Paragraph :=
  Paragraph.mk (scan (normalize text))

/-- Python `re.split` on the pattern of two consecutive newlines: scanning
left to right, each non-overlapping occurrence of an exact double newline
separates two pieces. -/
def splitNN : List Char → List (List Char)
  | [] => [[]]
  | [c] => [[c]]
  | c1 :: c2 :: rest =>
    if c1 = '\n' ∧ c2 = '\n' then [] :: splitNN rest
    else
      match splitNN (c2 :: rest) with
      | [] => [[c1]]
      | p :: ps => (c1 :: p) :: ps

/-- Number of non-overlapping double-newline occurrences, scanning left to
right; stated independently of `splitNN` so that the paragraph count can be
related to it. -/
def countNN : List Char → Nat
  | [] => 0
  | [_] => 0
  | c1 :: c2 :: rest =>
    if c1 = '\n' ∧ c2 = '\n' then countNN rest + 1 else countNN (c2 :: rest)

/-- parse_description (gitbib/description.py lines 105-107). -/
def parse_description (desc : List Char) : Description :=
  Description.mk ((splitNN desc).map parse_paragraph)

/-- Text._markdown and Citation._markdown (gitbib/description.py lines
21-22 and 40-42): a Text renders verbatim; a Citation renders as the
bracketed marker with its number printed by Python `str`. -/
def partMarkdown : DescriptionPart → List Char
  | DescriptionPart.Text s => s
  | DescriptionPart.Citation ident num =>
    '[' :: (ident ++ (match num with
                      | some n => '=' :: (Nat.repr n).data
                      | none => []) ++ [']'])

/-- Paragraph._markdown (gitbib/description.py lines 59-60). -/
def paragraphMarkdown (p : Paragraph) : List Char :=
  (p.parts.map partMarkdown).flatten

/-! ## gitbib2 data model (gitbib/gitbib2.py)

Fields of `Entry` that no code path under verification consults (title,
authors, dates, container title, volume, issue, page, url, pdf, description,
abstract, tags) are omitted from the embedding; the indexing, resolution and
linking code reads only `ident`, `fn`, `doi`, `arxiv` and `cites`. -/

structure TargetIdent where
  ident : String
  target_type : String
deriving DecidableEq, Repr

structure Citation where
  target_ident : TargetIdent
  num : Option Nat
  why : Option String
deriving DecidableEq, Repr

structure Entry where
  ident : String
  fn : String
  doi : Option String
  arxiv : Option String
  cites : List Citation
deriving DecidableEq, Repr

/-- One report printed by `add_with_check` when a key is already taken:
the index name, the key, the entry whose insertion was skipped, and the
entry already holding the key. -/
structure Conflict where
  dname : String
  key : String
  attempted : Entry
  existing : Entry
deriving DecidableEq, Repr

structure Indices where
  by_doi : List (String × Entry)
  by_ident : List (String × Entry)
  by_arxivid : List (String × Entry)
  by_fn : List (String × List Entry)
  secondary_by_fn : List (String × List Entry)
deriving DecidableEq, Repr

/-- add_with_check (gitbib/gitbib2.py lines 808-817): a None key is ignored;
an occupied key leaves the dict unchanged and reports a conflict (first
entry wins); otherwise the binding is inserted. -/
def add_with_check (d : List (String × Entry)) (k : Option String) (e : Entry)
    (dname : String) : List (String × Entry) × Option Conflict :=
  match k with
  | none => (d, none)
  | some key =>
    match dlookup d key with
    | some other => (d, some ⟨dname, key, e, other⟩)
    | none => (d ++ [(key, e)], none)

/-- Appending to `by_fn[fn]` (a defaultdict of lists). -/
def fnAdd (d : List (String × List Entry)) (k : String) (e : Entry) :
    List (String × List Entry) :=
  match d with
  | [] => [(k, [e])]
  | (k1, l) :: rest => if k1 = k then (k1, l ++ [e]) :: rest else (k1, l) :: fnAdd rest k e

/-- One iteration of the entry loop of `_create_indices` (gitbib/gitbib2.py
lines 819-823), threading the four indices plus the conflict reports. -/
def indices_step (acc : Indices × List Conflict) (e : Entry) : Indices × List Conflict :=
  let (idx, cf) := acc
  let (bi, c1) := add_with_check idx.by_ident (some e.ident) e "by_ident"
  let (bd, c2) := add_with_check idx.by_doi e.doi e "by_doi"
  let (ba, c3) := add_with_check idx.by_arxivid e.arxiv e "by_arxivid"
  (⟨bd, bi, ba, fnAdd idx.by_fn e.fn e, idx.secondary_by_fn⟩,
   cf ++ (c1.toList ++ c2.toList ++ c3.toList))

/-- _create_indices (gitbib/gitbib2.py lines 802-831); the conflict reports
stand for its `print` calls. -/
def create_indices (entries : List Entry) : Indices × List Conflict :=
  entries.foldl indices_step (⟨[], [], [], [], []⟩, [])

/-- _resolve_doi_cites (gitbib/gitbib2.py lines 472-486): every citation
whose target has type doi and whose identifier is a by_doi key is rewritten
in place to an ident-type target naming the resolved entry; all other
citations are kept as they are.  (The `entry.cites is None` guard of the
source is vacuous here because `cites` is embedded with its declared list
type.) -/
def resolve_doi_cites (entry : Entry) (by_doi : List (String × Entry)) : Entry :=
  { entry with
    cites := entry.cites.map (fun cite =>
      if cite.target_ident.target_type = "doi" then
        match dlookup by_doi cite.target_ident.ident with
        | some target => { cite with target_ident := ⟨target.ident, "ident"⟩ }
        | none => cite
      else cite) }

/-! ## Citation graph (networkx DiGraph as used by `main`) -/

structure DiGraph where
  edges : List (String × String)
deriving DecidableEq, Repr

def add_edge (g : DiGraph) (u v : String) : DiGraph :=
  if (u, v) ∈ g.edges then g else ⟨g.edges ++ [(u, v)]⟩

/-- Node membership (`entry.ident not in cite_network`): a node exists iff
some edge touches it, since the graph is populated only through add_edge. -/
def hasNode (g : DiGraph) (n : String) : Bool :=
  g.edges.any (fun e => e.1 = n || e.2 = n)

/-- Successor list of a node, in edge-insertion order, each successor once
(edges are kept duplicate-free by add_edge). -/
def successors (g : DiGraph) (n : String) : List String :=
  (g.edges.filter (fun e => e.1 = n)).map (fun e => e.2)

/-- The if/elif chain of the linking loop of `main` for one citation target
of a known type: an edge is added exactly when the target identifier is
found in the index matching its namespace. -/
def link_one (owner : String) (t : TargetIdent) (idx : Indices) (g : DiGraph) : DiGraph :=
  if t.target_type = "doi" then
    match dlookup idx.by_doi t.ident with
    | some e => add_edge g owner e.ident
    | none => g
  else if t.target_type = "arxivid" then
    match dlookup idx.by_arxivid t.ident with
    | some e => add_edge g owner e.ident
    | none => g
  else
    match dlookup idx.by_ident t.ident with
    | some e => add_edge g owner e.ident
    | none => g

/-- Body of the linking loop of `main` (gitbib/gitbib2.py lines 566-576) for
the citations of one entry: a target type outside doi/arxivid/ident raises
ValueError; otherwise an edge is added when the target identifier is found
in the matching index. -/
def link_entry_cites (owner : String) (cs : List Citation) (idx : Indices)
    (g : DiGraph) : Except String DiGraph :=
  match cs with
  | [] => Except.ok g
  | c :: rest =>
    let t := c.target_ident
    if t.target_type ∉ (["doi", "arxivid", "ident"] : List String) then
      Except.error ("Unknown citation target type " ++ t.target_type)
    else
      link_entry_cites owner rest idx (link_one owner t idx g)

/-- The linking loop of `main` over all entries.  (The `entry.cites is not
None` guard of the source is vacuous under the declared list type.) -/
def link_cites (entries : List Entry) (idx : Indices) (g : DiGraph) :
    Except String DiGraph :=
  match entries with
  | [] => Except.ok g
  | e :: rest =>
    match link_entry_cites e.ident e.cites idx g with
    | Except.error msg => Except.error msg
    | Except.ok g2 => link_cites rest idx g2

def build_cite_network (entries : List Entry) (idx : Indices) : Except String DiGraph :=
  link_cites entries idx ⟨[]⟩

/-- The resolution pass of the pipeline: build the identifier indices,
rewrite doi targets (`_resolve_doi_cites` mapped over the entries, lines
542-543 of gitbib/gitbib2.py), rebuild the indices, and construct the
citation graph (lines 561-576). -/
def resolution_pass (entries : List Entry) : List Entry × Except String DiGraph :=
  let idx := (create_indices entries).1
  let entries2 := entries.map (fun e => resolve_doi_cites e idx.by_doi)
  let idx2 := (create_indices entries2).1
  (entries2, build_cite_network entries2 idx2)

/-! ## Per-file secondary sets (_create_indices_2, gitbib/gitbib2.py lines
834-856) -/

/-- Inner loop over the successors of one primary entry: each child ident is
looked up in by_ident (a missing key would be a Python KeyError, embedded as
an error); children belonging to the same file are skipped, all others are
appended in order. -/
def secondary_children (by_ident : List (String × Entry)) (fn : String) :
    List String → Except String (List Entry)
  | [] => Except.ok []
  | cIdent :: rest =>
    match dlookup by_ident cIdent with
    | none => Except.error ("KeyError " ++ cIdent)
    | some child =>
      match secondary_children by_ident fn rest with
      | Except.error msg => Except.error msg
      | Except.ok tail =>
        if child.fn = fn then Except.ok tail else Except.ok (child :: tail)

/-- Middle loop over the primary entries of one file: entries absent from
the graph are skipped, the rest contribute their filtered successors in
order. -/
def secondary_for_fn (by_ident : List (String × Entry)) (net : DiGraph)
    (fn : String) : List Entry → Except String (List Entry)
  | [] => Except.ok []
  | e :: rest =>
    if hasNode net e.ident then
      match secondary_children by_ident fn (successors net e.ident) with
      | Except.error msg => Except.error msg
      | Except.ok l1 =>
        match secondary_for_fn by_ident net fn rest with
        | Except.error msg => Except.error msg
        | Except.ok l2 => Except.ok (l1 ++ l2)
    else secondary_for_fn by_ident net fn rest

/-- Outer loop over the files of by_fn, building secondary_by_fn. -/
def secondary_assoc (by_ident : List (String × Entry)) (net : DiGraph) :
    List (String × List Entry) → Except String (List (String × List Entry))
  | [] => Except.ok []
  | (fn, primary) :: rest =>
    match secondary_for_fn by_ident net fn primary with
    | Except.error msg => Except.error msg
    | Except.ok sec =>
      match secondary_assoc by_ident net rest with
      | Except.error msg => Except.error msg
      | Except.ok tail => Except.ok ((fn, sec) :: tail)

/-- _create_indices_2 (gitbib/gitbib2.py lines 834-856): the four lookup
indices are carried over unchanged and secondary_by_fn is recomputed from
the graph. -/
def create_indices_2 (idx : Indices) (net : DiGraph) : Except String Indices :=
  match secondary_assoc idx.by_ident net idx.by_fn with
  | Except.error msg => Except.error msg
  | Except.ok sec => Except.ok ⟨idx.by_doi, idx.by_ident, idx.by_arxivid, idx.by_fn, sec⟩

/-! ## Deprecated transitive descendants (gitbib/gitbib.py lines 723-742)

The v1 code stores entries as a dict of loosely-typed records; only the
`cites` list with its `resolved` flag and `id` field is consulted.  The
recursion carries no visited set, so the fuel parameter below bounds the
recursion depth; a result of none means the computation did not complete
within that depth (recursion into a missing entry key, or fuel exhausted —
in Python, a KeyError or unbounded recursion). -/

structure V1Cite where
  cid : Option String
  resolved : Bool
deriving DecidableEq, Repr

structure V1Entry where
  cites : List V1Cite
deriving DecidableEq, Repr

/-- Python `set.add` on the accumulator out_idents. -/
def setAdd (out : List String) (i : String) : List String :=
  if i ∈ out then out else out ++ [i]

/-- The `for cite in node['cites']` loop of `_descendants`: resolved
citations add their id to the accumulator and recurse through `rec`
(unresolved ones only warn).  A resolved citation with no id would be a
Python KeyError. -/
def descCitesGo (rec' : String → List String → Option (List String)) :
    List V1Cite → List String → Option (List String)
  | [], out => some out
  | c :: rest, out =>
    if c.resolved then
      match c.cid with
      | none => none
      | some i =>
        match rec' i (setAdd out i) with
        | none => none
        | some out2 => descCitesGo rec' rest out2
    else descCitesGo rec' rest out

/-- _descendants (gitbib/gitbib.py lines 723-735), fuel-bounded.  The source
recurses into every resolved citation with no guard against revisiting a
node already in out_idents. -/
def descendantsF (entries : List (String × V1Entry)) : Nat → String → List String →
    Option (List String)
  | 0, _, _ => none
  | fuel + 1, ident, out =>
    match dlookup entries ident with
    | none => none
    | some node => descCitesGo (descendantsF entries fuel) node.cites out

/-! ## Concrete data used by witnesses and counterexamples -/

/-- File f1, cites entry b by ident. -/
def entA1 : Entry :=
  { ident := "a1", fn := "f1", doi := none, arxiv := none,
    cites := [⟨⟨"b", "ident"⟩, none, none⟩] }

/-- File f1, also cites entry b by ident. -/
def entA2 : Entry :=
  { ident := "a2", fn := "f1", doi := none, arxiv := none,
    cites := [⟨⟨"b", "ident"⟩, none, none⟩] }

/-- File f2, cited by both entries of f1. -/
def entB : Entry :=
  { ident := "b", fn := "f2", doi := none, arxiv := none, cites := [] }

/-- Graph in which both f1 entries cite b. -/
def netAB : DiGraph := ⟨[("a1", "b"), ("a2", "b")]⟩

/-- Owner of an arxivid-type citation. -/
def entArxOwner : Entry :=
  { ident := "a", fn := "f1", doi := none, arxiv := none,
    cites := [⟨⟨"1234.5678", "arxivid"⟩, none, none⟩] }

/-- Target entry carrying the cited arXiv id. -/
def entArxTarget : Entry :=
  { ident := "b", fn := "f2", doi := none, arxiv := some "1234.5678", cites := [] }

/-- First-loaded entry with doi 10.1/x. -/
def entDoi1 : Entry :=
  { ident := "e1", fn := "f1", doi := some "10.1/x", arxiv := none, cites := [] }

/-- Second-loaded entry with the same doi 10.1/x. -/
def entDoi2 : Entry :=
  { ident := "e2", fn := "f2", doi := some "10.1/x", arxiv := none, cites := [] }

/-- A self-citing v1 entry collection: entry a has one resolved citation
pointing back at a itself. -/
def cyclicEntries : List (String × V1Entry) := [("a", ⟨[⟨some "a", true⟩]⟩)]

/-! ## Theorems -/

/-- C7: scanning the text "They take qaoa [qaoa=1] [qaoa2=2] and formulate
it as a grovers search." produces exactly the token sequence
Text "They take qaoa ", Citation "qaoa" 1, Text " ", Citation "qaoa2" 2,
Text " and formulate it as a grovers search.". -/
theorem c7_scan_scenario_A :
    parse_paragraph ("They take qaoa [qaoa=1] [qaoa2=2] and formulate it as a grovers search.".data) =
      Paragraph.mk
        [DescriptionPart.Text ("They take qaoa ".data),
         DescriptionPart.Citation ("qaoa".data) (some 1),
         DescriptionPart.Text (" ".data),
         DescriptionPart.Citation ("qaoa2".data) (some 2),
         DescriptionPart.Text (" and formulate it as a grovers search.".data)] := by
  rfl

/-- C9: the deprecated `_descendants` walk carries no visited-set guard, so
on a self-citing entry it recurses forever: no recursion-depth bound lets
the computation complete.  (In Python the call
descendants(idents = a, entries = the self-citing collection) dies with
RecursionError.) -/
theorem c9_descendants_diverges_on_cycle :
    ∀ (fuel : Nat) (out : List String),
      descendantsF cyclicEntries fuel "a" out = none := by
  intro fuel
  induction fuel with
  | zero => intro out; rfl
  | succ n ih =>
    intro out
    have h : descendantsF cyclicEntries (n + 1) "a" out
        = descCitesGo (descendantsF cyclicEntries n) [⟨some "a", true⟩] out := rfl
    rw [h]
    simp [descCitesGo, ih]

/-- C2 counterexample: entries a1 and a2 both live in file f1 and both cite
entry b of file f2; the secondary list computed for f1 contains b twice, not
once as the claim states — the source appends without a membership check. -/
theorem c2_counterexample :
    (create_indices_2 (create_indices [entA1, entA2, entB]).1 netAB).map
        (fun idx => dlookup idx.secondary_by_fn "f1") = Except.ok (some [entB, entB]) ∧
      [entB, entB].count entB = 2 := by
  exact ⟨rfl, rfl⟩

/-- C6 counterexample: entry a cites arXiv id 1234.5678 with target type
arxivid, and entry b carries that arXiv id.  The resolution pass adds the
edge a → b but returns the entries completely unchanged: the citation's
target keeps type arxivid and is never rewritten to an ident-type target,
contrary to the claim that arXiv targets get the same rewrite as DOI
targets. -/
theorem c6_counterexample :
    (resolution_pass [entArxOwner, entArxTarget]).1 = [entArxOwner, entArxTarget] ∧
      (resolution_pass [entArxOwner, entArxTarget]).2 = Except.ok ⟨[("a", "b")]⟩ := by
  exact ⟨rfl, rfl⟩

/-- C8 counterexample: the text a\n\n\n\nb holds a single run of four
newlines, so the claim (one paragraph boundary per run) predicts two
paragraphs; `re.split` on the exact double-newline pattern produces three
(the middle one empty). -/
theorem c8_counterexample :
    (parse_description ("a\n\n\n\nb".data)).paragraphs.length = 3 ∧
      (parse_description ("a\n\n\n\nb".data)).paragraphs.length ≠ 2 := by
  exact ⟨rfl, by decide⟩

/-- C10 counterexample: the input [a=01] scans to a citation numbered 1, and
re-rendering prints the number through Python str, so the round trip yields
[a=1], not the original text (the input has no newline, so normalization is
the identity on it). -/
theorem c10_counterexample :
    paragraphMarkdown (parse_paragraph ("[a=01]".data)) = "[a=1]".data ∧
      "[a=1]".data ≠ normalize ("[a=01]".data) := by
  exact ⟨rfl, by decide⟩

/-! ### C5: unknown target types abort graph construction -/

theorem link_entry_cites_error_iff (owner : String) (idx : Indices) :
    ∀ (cs : List Citation) (g : DiGraph),
      (∃ msg, link_entry_cites owner cs idx g = Except.error msg) ↔
        ∃ c ∈ cs, c.target_ident.target_type ∉ (["doi", "arxivid", "ident"] : List String) := by
  intro cs
  induction cs with
  | nil =>
    intro g
    simp [link_entry_cites]
  | cons c rest ih =>
    intro g
    by_cases hb : c.target_ident.target_type ∈ (["doi", "arxivid", "ident"] : List String)
    · rw [link_entry_cites, if_neg (not_not_intro hb)]
      rw [ih]
      constructor
      · intro h
        obtain ⟨c2, hc2, hbad⟩ := h
        exact ⟨c2, List.mem_cons_of_mem _ hc2, hbad⟩
      · intro h
        obtain ⟨c2, hc2, hbad⟩ := h
        rcases List.mem_cons.mp hc2 with h1 | h1
        · subst h1; exact absurd hb hbad
        · exact ⟨c2, h1, hbad⟩
    · rw [link_entry_cites, if_pos hb]
      constructor
      · intro _
        exact ⟨c, List.mem_cons_self c rest, hb⟩
      · intro _
        exact ⟨_, rfl⟩

theorem link_cites_error_iff (idx : Indices) :
    ∀ (entries : List Entry) (g : DiGraph),
      (∃ msg, link_cites entries idx g = Except.error msg) ↔
        ∃ e ∈ entries, ∃ c ∈ e.cites,
          c.target_ident.target_type ∉ (["doi", "arxivid", "ident"] : List String) := by
  intro entries
  induction entries with
  | nil =>
    intro g
    simp [link_cites]
  | cons e rest ih =>
    intro g
    rw [link_cites]
    rcases h : link_entry_cites e.ident e.cites idx g with msg | g2
    · simp only []
      constructor
      · intro _
        have hbad := (link_entry_cites_error_iff e.ident idx e.cites g).mp ⟨msg, h⟩
        obtain ⟨c, hc, hb⟩ := hbad
        exact ⟨e, List.mem_cons_self e rest, c, hc, hb⟩
      · intro _
        exact ⟨msg, rfl⟩
    · simp only []
      rw [ih]
      have hgood : ¬ ∃ c ∈ e.cites,
          c.target_ident.target_type ∉ (["doi", "arxivid", "ident"] : List String) := by
        intro hbad
        obtain ⟨msg2, hmsg⟩ := (link_entry_cites_error_iff e.ident idx e.cites g).mpr hbad
        rw [h] at hmsg
        exact Except.noConfusion hmsg
      constructor
      · intro hr
        obtain ⟨e2, he2, c, hc, hb⟩ := hr
        exact ⟨e2, List.mem_cons_of_mem _ he2, c, hc, hb⟩
      · intro hr
        obtain ⟨e2, he2, c, hc, hb⟩ := hr
        rcases List.mem_cons.mp he2 with h1 | h1
        · subst h1; exact absurd ⟨c, hc, hb⟩ hgood
        · exact ⟨e2, h1, c, hc, hb⟩

/-- C5: graph construction raises exactly when some citation reaching it has
a target type outside the known set (spelled doi / arxivid / ident in the
source); when every target type is in that set, no exception occurs. -/
theorem c5_unknown_target_type_fatal (entries : List Entry) (idx : Indices) :
    (∃ msg, build_cite_network entries idx = Except.error msg) ↔
      ∃ e ∈ entries, ∃ c ∈ e.cites,
        c.target_ident.target_type ∉ (["doi", "arxivid", "ident"] : List String) := by
  exact link_cites_error_iff idx entries ⟨[]⟩

/-! ### C1: the resolution pass is idempotent -/

theorem create_indices_by_doi_fold :
    ∀ (es : List Entry) (acc : Indices × List Conflict),
      (es.foldl indices_step acc).1.by_doi =
        es.foldl (fun d e => (add_with_check d e.doi e "by_doi").1) acc.1.by_doi := by
  intro es
  induction es with
  | nil => intro acc; rfl
  | cons e rest ih =>
    intro acc
    rw [List.foldl_cons, List.foldl_cons, ih]
    rfl

theorem dmem_add_with_check (d : List (String × Entry)) (ko : Option String)
    (e : Entry) (dn : String) (k : String) :
    dmem (add_with_check d ko e dn).1 k = (dmem d k || decide (ko = some k)) := by
  match ko with
  | none => simp [add_with_check]
  | some k0 =>
    rcases h : dlookup d k0 with _ | v
    · rw [add_with_check]
      simp only [h]
      unfold dmem
      rw [dlookup_append]
      rcases h2 : dlookup d k with _ | w
      · by_cases hk : k0 = k
        · subst hk
          simp [dlookup, h2]
        · simp [dlookup, hk, h2]
      · simp [h2]
    · rw [add_with_check]
      simp only [h]
      by_cases hk : k0 = k
      · subst hk
        unfold dmem
        simp [h]
      · simp [hk]

theorem dmem_doi_fold_map (f : Entry → Entry) (hf : ∀ e, (f e).doi = e.doi) :
    ∀ (es : List Entry) (d1 d2 : List (String × Entry)),
      (∀ k, dmem d1 k = dmem d2 k) →
      ∀ k, dmem ((es.map f).foldl (fun d e => (add_with_check d e.doi e "by_doi").1) d1) k =
        dmem (es.foldl (fun d e => (add_with_check d e.doi e "by_doi").1) d2) k := by
  intro es
  induction es with
  | nil => intro d1 d2 h k; exact h k
  | cons e rest ih =>
    intro d1 d2 h k
    rw [List.map_cons, List.foldl_cons, List.foldl_cons]
    refine ih _ _ ?_ k
    intro k2
    rw [dmem_add_with_check, dmem_add_with_check, hf, h k2]

theorem resolve_doi_cites_idem (e : Entry) (d1 d2 : List (String × Entry))
    (h : ∀ k, dmem d2 k = dmem d1 k) :
    resolve_doi_cites (resolve_doi_cites e d1) d2 = resolve_doi_cites e d1 := by
  unfold resolve_doi_cites
  simp only [List.map_map]
  congr 1
  apply List.map_congr_left
  intro c _
  simp only [Function.comp_apply]
  by_cases ht : c.target_ident.target_type = "doi"
  · rcases hl : dlookup d1 c.target_ident.ident with _ | t
    · have h2 : dlookup d2 c.target_ident.ident = none := by
        have h3 := h c.target_ident.ident
        unfold dmem at h3
        rw [hl] at h3
        simpa using h3
      simp [ht, hl, h2]
    · simp [ht, hl]
  · simp [ht]

/-- C1: running the resolution pass (doi-target rewriting followed by graph
construction) a second time on the already-resolved entries leaves the
entries unchanged and yields exactly the same graph-construction result as
the first run. -/
theorem c1_resolution_pass_idempotent (entries : List Entry) :
    resolution_pass ((resolution_pass entries).1) = resolution_pass entries := by
  have hdom : ∀ k,
      dmem (create_indices ((resolution_pass entries).1)).1.by_doi k =
        dmem (create_indices entries).1.by_doi k := by
    intro k
    have h1 := create_indices_by_doi_fold
      ((resolution_pass entries).1) (⟨⟨[], [], [], [], []⟩, []⟩)
    have h2 := create_indices_by_doi_fold entries (⟨⟨[], [], [], [], []⟩, []⟩)
    unfold create_indices
    rw [h1, h2]
    exact dmem_doi_fold_map (fun e => resolve_doi_cites e (create_indices entries).1.by_doi)
      (fun e => rfl) entries [] [] (fun _ => rfl) k
  have hmap : ((resolution_pass entries).1).map
      (fun e => resolve_doi_cites e (create_indices ((resolution_pass entries).1)).1.by_doi) =
        (resolution_pass entries).1 := by
    show (entries.map (fun e => resolve_doi_cites e (create_indices entries).1.by_doi)).map _ = _
    rw [List.map_map]
    apply List.map_congr_left
    intro e _
    exact resolve_doi_cites_idem e (create_indices entries).1.by_doi _ hdom
  show ((((resolution_pass entries).1).map
      (fun e => resolve_doi_cites e (create_indices ((resolution_pass entries).1)).1.by_doi)),
      build_cite_network _ (create_indices _).1) = resolution_pass entries
  rw [hmap]
  rfl

/-! ### C3: the secondary set of a file is disjoint from its primary set -/

theorem dlookup_mem {α : Type} :
    ∀ (d : List (String × α)) (k : String) (v : α), dlookup d k = some v → (k, v) ∈ d := by
  intro d
  induction d with
  | nil => intro k v h; exact Option.noConfusion h
  | cons p rest ih =>
    intro k v h
    obtain ⟨k1, v1⟩ := p
    rw [dlookup] at h
    by_cases hk : k1 = k
    · rw [if_pos hk] at h
      rw [Option.some_inj] at h
      subst hk; subst h
      exact List.mem_cons_self _ _
    · rw [if_neg hk] at h
      exact List.mem_cons_of_mem _ (ih k v h)

theorem create_indices_by_fn_fold :
    ∀ (es : List Entry) (acc : Indices × List Conflict),
      (es.foldl indices_step acc).1.by_fn =
        es.foldl (fun d e => fnAdd d e.fn e) acc.1.by_fn := by
  intro es
  induction es with
  | nil => intro acc; rfl
  | cons e rest ih =>
    intro acc
    rw [List.foldl_cons, List.foldl_cons, ih]
    rfl

theorem fnAdd_invariant (k0 : String) (e0 : Entry) (h0 : e0.fn = k0) :
    ∀ (d : List (String × List Entry)),
      (∀ p ∈ d, ∀ e ∈ p.2, e.fn = p.1) →
      ∀ p ∈ fnAdd d k0 e0, ∀ e ∈ p.2, e.fn = p.1 := by
  intro d
  induction d with
  | nil =>
    intro _ p hp e he
    rw [fnAdd] at hp
    rcases List.mem_singleton.mp hp with h
    subst h
    rcases List.mem_singleton.mp he with h
    subst h
    exact h0
  | cons q rest ih =>
    intro hinv p hp e he
    obtain ⟨k1, l1⟩ := q
    rw [fnAdd] at hp
    by_cases hk : k1 = k0
    · rw [if_pos hk] at hp
      rcases List.mem_cons.mp hp with h | h
      · subst h
        rcases List.mem_append.mp he with h2 | h2
        · exact hinv (k1, l1) (List.mem_cons_self _ _) e h2
        · rcases List.mem_singleton.mp h2 with h3
          subst h3
          rw [h0, hk]
      · exact hinv p (List.mem_cons_of_mem _ h) e he
    · rw [if_neg hk] at hp
      rcases List.mem_cons.mp hp with h | h
      · subst h
        exact hinv (k1, l1) (List.mem_cons_self _ _) e he
      · exact ih (fun q hq => hinv q (List.mem_cons_of_mem _ hq)) p h e he

theorem by_fn_fold_invariant :
    ∀ (es : List Entry) (d : List (String × List Entry)),
      (∀ p ∈ d, ∀ e ∈ p.2, e.fn = p.1) →
      ∀ p ∈ es.foldl (fun d e => fnAdd d e.fn e) d, ∀ e ∈ p.2, e.fn = p.1 := by
  intro es
  induction es with
  | nil => intro d h; exact h
  | cons e0 rest ih =>
    intro d h
    rw [List.foldl_cons]
    exact ih _ (fnAdd_invariant e0.fn e0 rfl d h)

/-- Every entry stored in by_fn under file key fn belongs to file fn. -/
theorem create_indices_by_fn_entries (entries : List Entry) (fn : String)
    (primary : List Entry)
    (hprim : dlookup (create_indices entries).1.by_fn fn = some primary) :
    ∀ e ∈ primary, e.fn = fn := by
  intro e he
  have h1 : (create_indices entries).1.by_fn =
      entries.foldl (fun d e => fnAdd d e.fn e) [] :=
    create_indices_by_fn_fold entries _
  rw [h1] at hprim
  have h2 := by_fn_fold_invariant entries [] (by intro p hp; exact absurd hp (List.not_mem_nil p))
  exact h2 (fn, primary) (dlookup_mem _ _ _ hprim) e he

theorem secondary_children_fn (by_ident : List (String × Entry)) (fn : String) :
    ∀ (children : List String) (l : List Entry),
      secondary_children by_ident fn children = Except.ok l →
      ∀ e ∈ l, e.fn ≠ fn := by
  intro children
  induction children with
  | nil =>
    intro l h e he
    rw [secondary_children] at h
    cases h
    exact absurd he (List.not_mem_nil e)
  | cons c rest ih =>
    intro l h e he
    rw [secondary_children] at h
    rcases hc : dlookup by_ident c with _ | child
    · rw [hc] at h; exact Except.noConfusion h
    · rw [hc] at h
      rcases ht : secondary_children by_ident fn rest with msg | tail
      · rw [ht] at h; exact Except.noConfusion h
      · rw [ht] at h
        have h4 : (if child.fn = fn then Except.ok (ε := String) tail
            else Except.ok (child :: tail)) = Except.ok l := h
        by_cases hfn : child.fn = fn
        · rw [if_pos hfn] at h4
          cases h4
          exact ih _ ht e he
        · rw [if_neg hfn] at h4
          cases h4
          rcases List.mem_cons.mp he with h2 | h2
          · subst h2; exact hfn
          · exact ih _ ht e h2

theorem secondary_for_fn_fn (by_ident : List (String × Entry)) (net : DiGraph)
    (fn : String) :
    ∀ (primary : List Entry) (sec : List Entry),
      secondary_for_fn by_ident net fn primary = Except.ok sec →
      ∀ e ∈ sec, e.fn ≠ fn := by
  intro primary
  induction primary with
  | nil =>
    intro sec h e he
    rw [secondary_for_fn] at h
    cases h
    exact absurd he (List.not_mem_nil e)
  | cons p rest ih =>
    intro sec h e he
    rw [secondary_for_fn] at h
    by_cases hn : hasNode net p.ident
    · rw [if_pos hn] at h
      rcases h1 : secondary_children by_ident fn (successors net p.ident) with msg | l1
      · rw [h1] at h; exact Except.noConfusion h
      · rw [h1] at h
        rcases h2 : secondary_for_fn by_ident net fn rest with msg | l2
        · rw [h2] at h; exact Except.noConfusion h
        · rw [h2] at h
          cases h
          rcases List.mem_append.mp he with h3 | h3
          · exact secondary_children_fn by_ident fn _ l1 h1 e h3
          · exact ih l2 h2 e h3
    · rw [if_neg hn] at h
      exact ih sec h e he

theorem secondary_assoc_lookup (by_ident : List (String × Entry)) (net : DiGraph) :
    ∀ (l : List (String × List Entry)) (l2 : List (String × List Entry)) (fn : String)
      (sec : List Entry),
      secondary_assoc by_ident net l = Except.ok l2 →
      dlookup l2 fn = some sec →
      ∃ primary, dlookup l fn = some primary ∧
        secondary_for_fn by_ident net fn primary = Except.ok sec := by
  intro l
  induction l with
  | nil =>
    intro l2 fn sec h hl
    rw [secondary_assoc] at h
    cases h
    exact Option.noConfusion hl
  | cons p rest ih =>
    intro l2 fn sec h hl
    obtain ⟨k, primary⟩ := p
    rw [secondary_assoc] at h
    rcases h1 : secondary_for_fn by_ident net k primary with msg | s1
    · rw [h1] at h; exact Except.noConfusion h
    · rw [h1] at h
      rcases h2 : secondary_assoc by_ident net rest with msg | tail
      · rw [h2] at h; exact Except.noConfusion h
      · rw [h2] at h
        cases h
        rw [dlookup] at hl
        by_cases hk : k = fn
        · rw [if_pos hk] at hl
          rw [Option.some_inj] at hl
          subst hk; subst hl
          exact ⟨primary, by rw [dlookup, if_pos rfl], h1⟩
        · rw [if_neg hk] at hl
          obtain ⟨primary2, hp2, hs2⟩ := ih tail fn sec h2 hl
          exact ⟨primary2, by rw [dlookup, if_neg hk]; exact hp2, hs2⟩

/-- C3: for every entry collection, citation graph and file fn, no entry of
the secondary set computed for fn is also in fn's primary set. -/
theorem c3_secondary_disjoint_from_primary (entries : List Entry) (net : DiGraph)
    (idx2 : Indices) (fn : String) (sec primary : List Entry) (e : Entry)
    (hok : create_indices_2 (create_indices entries).1 net = Except.ok idx2)
    (hsec : dlookup idx2.secondary_by_fn fn = some sec)
    (hprim : dlookup idx2.by_fn fn = some primary)
    (he : e ∈ sec) : e ∉ primary := by
  intro hmem
  rw [create_indices_2] at hok
  rcases h1 : secondary_assoc (create_indices entries).1.by_ident net
      (create_indices entries).1.by_fn with msg | secs
  · rw [h1] at hok; exact Except.noConfusion hok
  · rw [h1] at hok
    cases hok
    obtain ⟨primary2, hp2, hs2⟩ :=
      secondary_assoc_lookup _ net _ secs fn sec h1 hsec
    have hfn : e.fn ≠ fn := secondary_for_fn_fn _ net fn primary2 sec hs2 e he
    have hfn2 : e.fn = fn := create_indices_by_fn_entries entries fn primary hprim e hmem
    exact hfn hfn2

/-- C3 witness: in the two-file scenario (a1 and a2 in f1 both citing b in
f2) the computed secondary list of f1 is b twice and its primary list is
a1, a2; the theorem applies and b is indeed not a primary entry of f1. -/
theorem c3_witness : entB ∉ [entA1, entA2] := by
  exact c3_secondary_disjoint_from_primary [entA1, entA2, entB] netAB
    ((create_indices_2 (create_indices [entA1, entA2, entB]).1 netAB).toOption.getD
      ⟨[], [], [], [], []⟩)
    "f1" [entB, entB] [entA1, entA2] entB rfl rfl rfl (by decide)

/-! ### C4: duplicate DOIs — first entry wins, conflict reported, ident
index unaffected -/

theorem dlookup_awc_ne (d : List (String × Entry)) (ko : Option String) (e : Entry)
    (dn k : String) (h : ko ≠ some k) :
    dlookup (add_with_check d ko e dn).1 k = dlookup d k := by
  match ko with
  | none => rfl
  | some k0 =>
    have hk : k0 ≠ k := fun hh => h (by rw [hh])
    rw [add_with_check]
    rcases hl : dlookup d k0 with _ | v
    · simp only []
      rw [dlookup_append]
      rcases h2 : dlookup d k with _ | w
      · simp [dlookup, hk]
      · simp
    · rfl

theorem dlookup_awc_some (d : List (String × Entry)) (ko : Option String) (e : Entry)
    (dn k : String) (v : Entry) (h : dlookup d k = some v) :
    dlookup (add_with_check d ko e dn).1 k = some v := by
  match ko with
  | none => exact h
  | some k0 =>
    rw [add_with_check]
    rcases hl : dlookup d k0 with _ | w
    · simp only []
      rw [dlookup_append, h]
    · exact h

theorem dlookup_awc_new (d : List (String × Entry)) (k : String) (e : Entry)
    (dn : String) (h : dlookup d k = none) :
    dlookup (add_with_check d (some k) e dn).1 k = some e := by
  rw [add_with_check]
  simp only [h]
  rw [dlookup_append, h]
  simp [dlookup]

theorem dlookup_awc_fold_avoid (key : Entry → Option String) (dn : String) :
    ∀ (es : List Entry) (d : List (String × Entry)) (k : String),
      (∀ e ∈ es, key e ≠ some k) →
      dlookup (es.foldl (fun acc e => (add_with_check acc (key e) e dn).1) d) k =
        dlookup d k := by
  intro es
  induction es with
  | nil => intro d k _; rfl
  | cons e rest ih =>
    intro d k h
    rw [List.foldl_cons]
    rw [ih _ k (fun e2 he2 => h e2 (List.mem_cons_of_mem _ he2))]
    exact dlookup_awc_ne d (key e) e dn k (h e (List.mem_cons_self _ _))

theorem dlookup_awc_fold_some (key : Entry → Option String) (dn : String) :
    ∀ (es : List Entry) (d : List (String × Entry)) (k : String) (v : Entry),
      dlookup d k = some v →
      dlookup (es.foldl (fun acc e => (add_with_check acc (key e) e dn).1) d) k = some v := by
  intro es
  induction es with
  | nil => intro d k v h; exact h
  | cons e rest ih =>
    intro d k v h
    rw [List.foldl_cons]
    exact ih _ k v (dlookup_awc_some d (key e) e dn k v h)

theorem conflicts_superset :
    ∀ (es : List Entry) (acc : Indices × List Conflict) (c : Conflict),
      c ∈ acc.2 → c ∈ (es.foldl indices_step acc).2 := by
  intro es
  induction es with
  | nil => intro acc c h; exact h
  | cons e rest ih =>
    intro acc c h
    rw [List.foldl_cons]
    exact ih (indices_step acc e) c (List.mem_append_left _ h)

theorem indices_step_doi_conflict (acc : Indices × List Conflict) (e : Entry)
    (d : String) (v : Entry) (hd : e.doi = some d)
    (hl : dlookup acc.1.by_doi d = some v) :
    (⟨"by_doi", d, e, v⟩ : Conflict) ∈ (indices_step acc e).2 := by
  simp [indices_step, add_with_check, hd, hl]

theorem create_indices_by_ident_fold :
    ∀ (es : List Entry) (acc : Indices × List Conflict),
      (es.foldl indices_step acc).1.by_ident =
        es.foldl (fun d e => (add_with_check d (some e.ident) e "by_ident").1) acc.1.by_ident := by
  intro es
  induction es with
  | nil => intro acc; rfl
  | cons e rest ih =>
    intro acc
    rw [List.foldl_cons, List.foldl_cons, ih]
    rfl

/-- C4: when two entries carry the same DOI and E1 is loaded first (no entry
before E1 having that DOI), index construction maps the DOI to E1, reports
the by_doi collision against E2, and still maps E2's own ident to E2 in the
by_ident index (provided no earlier entry claimed that ident). -/
theorem c4_doi_collision_first_wins (pre mid post : List Entry) (E1 E2 : Entry)
    (d : String) (h1 : E1.doi = some d) (h2 : E2.doi = some d)
    (hpre : ∀ e ∈ pre, e.doi ≠ some d)
    (hident : ∀ e ∈ pre ++ E1 :: mid, e.ident ≠ E2.ident) :
    dlookup (create_indices (pre ++ E1 :: mid ++ E2 :: post)).1.by_doi d = some E1 ∧
      (⟨"by_doi", d, E2, E1⟩ : Conflict) ∈
        (create_indices (pre ++ E1 :: mid ++ E2 :: post)).2 ∧
      dlookup (create_indices (pre ++ E1 :: mid ++ E2 :: post)).1.by_ident E2.ident
        = some E2 := by
  have hassoc : pre ++ E1 :: mid ++ E2 :: post = (pre ++ E1 :: mid) ++ E2 :: post := by
    simp
  -- the intermediate state after processing pre ++ E1 :: mid
  have hS1doi : dlookup ((pre ++ E1 :: mid).foldl indices_step
      (⟨⟨[], [], [], [], []⟩, []⟩ : Indices × List Conflict)).1.by_doi d = some E1 := by
    rw [create_indices_by_doi_fold]
    rw [List.foldl_append, List.foldl_cons]
    refine dlookup_awc_fold_some (fun e => e.doi) "by_doi" mid _ d E1 ?_
    rw [h1]
    refine dlookup_awc_new _ d E1 "by_doi" ?_
    exact dlookup_awc_fold_avoid (fun e => e.doi) "by_doi" pre _ d hpre
  have hS1ident : dlookup ((pre ++ E1 :: mid).foldl indices_step
      (⟨⟨[], [], [], [], []⟩, []⟩ : Indices × List Conflict)).1.by_ident E2.ident = none := by
    rw [create_indices_by_ident_fold]
    have h3 : ∀ e ∈ pre ++ E1 :: mid, (some e.ident : Option String) ≠ some E2.ident := by
      intro e he hh
      exact hident e he (Option.some_inj.mp hh)
    exact dlookup_awc_fold_avoid (fun e => some e.ident) "by_ident" (pre ++ E1 :: mid) [] _ h3
  refine ⟨?_, ?_, ?_⟩
  · rw [create_indices, hassoc, List.foldl_append, List.foldl_cons]
    rw [create_indices_by_doi_fold]
    refine dlookup_awc_fold_some (fun e => e.doi) "by_doi" post _ d E1 ?_
    have h4 : (indices_step ((pre ++ E1 :: mid).foldl indices_step
        (⟨⟨[], [], [], [], []⟩, []⟩ : Indices × List Conflict)) E2).1.by_doi =
        (add_with_check ((pre ++ E1 :: mid).foldl indices_step
          (⟨⟨[], [], [], [], []⟩, []⟩ : Indices × List Conflict)).1.by_doi E2.doi E2
          "by_doi").1 := rfl
    rw [h4]
    exact dlookup_awc_some _ E2.doi E2 "by_doi" d E1 hS1doi
  · rw [create_indices, hassoc, List.foldl_append, List.foldl_cons]
    refine conflicts_superset post _ _ ?_
    exact indices_step_doi_conflict _ E2 d E1 h2 hS1doi
  · rw [create_indices, hassoc, List.foldl_append, List.foldl_cons]
    rw [create_indices_by_ident_fold]
    refine dlookup_awc_fold_some (fun e => some e.ident) "by_ident" post _ E2.ident E2 ?_
    have h4 : (indices_step ((pre ++ E1 :: mid).foldl indices_step
        (⟨⟨[], [], [], [], []⟩, []⟩ : Indices × List Conflict)) E2).1.by_ident =
        (add_with_check ((pre ++ E1 :: mid).foldl indices_step
          (⟨⟨[], [], [], [], []⟩, []⟩ : Indices × List Conflict)).1.by_ident
          (some E2.ident) E2 "by_ident").1 := rfl
    rw [h4]
    exact dlookup_awc_new _ E2.ident E2 "by_ident" hS1ident

/-- C4 witness: two concrete entries with the same DOI 10.1/x; the theorem
applies with empty surrounding lists and yields the three conclusions at
this input. -/
theorem c4_witness :
    dlookup (create_indices [entDoi1, entDoi2]).1.by_doi "10.1/x" = some entDoi1 ∧
      (⟨"by_doi", "10.1/x", entDoi2, entDoi1⟩ : Conflict) ∈
        (create_indices [entDoi1, entDoi2]).2 ∧
      dlookup (create_indices [entDoi1, entDoi2]).1.by_ident "e2" = some entDoi2 := by
  exact c4_doi_collision_first_wins [] [] [] entDoi1 entDoi2 "10.1/x" rfl rfl
    (by intro e he; exact absurd he (List.not_mem_nil e))
    (by decide)

/-! ### C6: arXiv targets get a graph edge but, unlike DOI targets, no
in-place rewrite -/

theorem add_edge_mem (g : DiGraph) (u v : String) : (u, v) ∈ (add_edge g u v).edges := by
  unfold add_edge
  split
  · assumption
  · exact List.mem_append_right _ (List.mem_singleton.mpr rfl)

theorem add_edge_superset (g : DiGraph) (u v : String) (x : String × String)
    (h : x ∈ g.edges) : x ∈ (add_edge g u v).edges := by
  unfold add_edge
  split
  · exact h
  · exact List.mem_append_left _ h

theorem link_one_superset (owner : String) (t : TargetIdent) (idx : Indices)
    (g : DiGraph) (x : String × String) (h : x ∈ g.edges) :
    x ∈ (link_one owner t idx g).edges := by
  unfold link_one
  split
  · rcases dlookup idx.by_doi t.ident with _ | e
    · exact h
    · exact add_edge_superset g owner e.ident x h
  · split
    · rcases dlookup idx.by_arxivid t.ident with _ | e
      · exact h
      · exact add_edge_superset g owner e.ident x h
    · rcases dlookup idx.by_ident t.ident with _ | e
      · exact h
      · exact add_edge_superset g owner e.ident x h

theorem link_one_arxiv_mem (owner : String) (t : TargetIdent) (idx : Indices)
    (g : DiGraph) (e2 : Entry) (hty : t.target_type = "arxivid")
    (ha : dlookup idx.by_arxivid t.ident = some e2) :
    (owner, e2.ident) ∈ (link_one owner t idx g).edges := by
  unfold link_one
  rw [hty]
  rw [if_neg (by decide), if_pos rfl, ha]
  exact add_edge_mem g owner e2.ident

theorem link_entry_cites_superset (owner : String) (idx : Indices) :
    ∀ (cs : List Citation) (g g2 : DiGraph),
      link_entry_cites owner cs idx g = Except.ok g2 →
      ∀ x ∈ g.edges, x ∈ g2.edges := by
  intro cs
  induction cs with
  | nil =>
    intro g g2 h x hx
    rw [link_entry_cites] at h
    cases h
    exact hx
  | cons c rest ih =>
    intro g g2 h x hx
    rw [link_entry_cites] at h
    by_cases hb : c.target_ident.target_type ∈ (["doi", "arxivid", "ident"] : List String)
    · rw [if_neg (not_not_intro hb)] at h
      exact ih _ g2 h x (link_one_superset owner c.target_ident idx g x hx)
    · rw [if_pos hb] at h
      exact Except.noConfusion h

theorem link_entry_cites_arxiv_edge (owner : String) (idx : Indices) (c : Citation)
    (t : Entry) (hty : c.target_ident.target_type = "arxivid")
    (ha : dlookup idx.by_arxivid c.target_ident.ident = some t) :
    ∀ (cs : List Citation) (g g2 : DiGraph),
      c ∈ cs → link_entry_cites owner cs idx g = Except.ok g2 →
      (owner, t.ident) ∈ g2.edges := by
  intro cs
  induction cs with
  | nil =>
    intro g g2 hc _
    exact absurd hc (List.not_mem_nil c)
  | cons c2 rest ih =>
    intro g g2 hc h
    rw [link_entry_cites] at h
    by_cases hb : c2.target_ident.target_type ∈ (["doi", "arxivid", "ident"] : List String)
    · rw [if_neg (not_not_intro hb)] at h
      rcases List.mem_cons.mp hc with h2 | h2
      · subst h2
        exact link_entry_cites_superset owner idx rest _ g2 h _
          (link_one_arxiv_mem owner c.target_ident idx g t hty ha)
      · exact ih _ g2 h2 h
    · rw [if_pos hb] at h
      exact Except.noConfusion h

/-- C6 amended: for a citation with target type arxivid whose identifier is
in the arXiv index, graph construction adds the edge from the owner to the
resolved entry's ident, but — unlike DOI targets — the doi-rewriting step
leaves the citation untouched: it survives resolution with its target still
of type arxivid, and is never rewritten to an ident-type target. -/
theorem c6_arxiv_edge_without_rewrite (e : Entry) (by_doi : List (String × Entry))
    (idx : Indices) (g g2 : DiGraph) (c : Citation) (t : Entry)
    (hc : c ∈ e.cites) (hty : c.target_ident.target_type = "arxivid")
    (ha : dlookup idx.by_arxivid c.target_ident.ident = some t)
    (hlink : link_entry_cites e.ident e.cites idx g = Except.ok g2) :
    c ∈ (resolve_doi_cites e by_doi).cites ∧ (e.ident, t.ident) ∈ g2.edges := by
  constructor
  · unfold resolve_doi_cites
    refine List.mem_map.mpr ⟨c, hc, ?_⟩
    simp [hty]
  · exact link_entry_cites_arxiv_edge e.ident idx c t hty ha e.cites g g2 hc hlink

/-- C6 witness: the concrete arxivid citation of entArxOwner resolves
against entArxTarget; the theorem applies and yields both conclusions at
this input. -/
theorem c6_witness :
    (⟨⟨"1234.5678", "arxivid"⟩, none, none⟩ : Citation) ∈
      (resolve_doi_cites entArxOwner
        (create_indices [entArxOwner, entArxTarget]).1.by_doi).cites ∧
      (entArxOwner.ident, entArxTarget.ident) ∈ (⟨[("a", "b")]⟩ : DiGraph).edges := by
  exact c6_arxiv_edge_without_rewrite entArxOwner
    (create_indices [entArxOwner, entArxTarget]).1.by_doi
    (create_indices [entArxOwner, entArxTarget]).1 ⟨[]⟩ ⟨[("a", "b")]⟩
    ⟨⟨"1234.5678", "arxivid"⟩, none, none⟩ entArxTarget
    (by decide) rfl rfl rfl

/-! ### C2 amended: a qualifying cited entry appears once per citing primary
entry (no deduplication) -/

theorem secondary_children_count (bi : List (String × Entry)) (fn : String) (C : Entry)
    (hcons : ∀ p ∈ bi, p.2.ident = p.1)
    (hC : dlookup bi C.ident = some C) (hCfn : C.fn ≠ fn) :
    ∀ (children : List String) (l : List Entry),
      secondary_children bi fn children = Except.ok l →
      l.count C = children.count C.ident := by
  intro children
  induction children with
  | nil =>
    intro l h
    rw [secondary_children] at h
    cases h
    simp
  | cons c cs ih =>
    intro l h
    rw [secondary_children] at h
    rcases hlk : dlookup bi c with _ | child
    · rw [hlk] at h; exact Except.noConfusion h
    · rw [hlk] at h
      rcases ht : secondary_children bi fn cs with msg | tail
      · rw [ht] at h; exact Except.noConfusion h
      · rw [ht] at h
        have h4 : (if child.fn = fn then Except.ok (ε := String) tail
            else Except.ok (child :: tail)) = Except.ok l := h
        have hchild : child.ident = c := hcons (c, child) (dlookup_mem bi c child hlk)
        by_cases hfn : child.fn = fn
        · rw [if_pos hfn] at h4
          cases h4
          have hne : c ≠ C.ident := by
            intro hEq
            subst hEq
            rw [hC] at hlk
            rw [Option.some_inj] at hlk
            subst hlk
            exact hCfn hfn
          rw [ih _ ht, List.count_cons]
          simp [hne]
        · rw [if_neg hfn] at h4
          cases h4
          by_cases hEq : c = C.ident
          · subst hEq
            rw [hC] at hlk
            rw [Option.some_inj] at hlk
            subst hlk
            rw [List.count_cons, List.count_cons]
            rw [ih _ ht]
            simp
          · have hneC : child ≠ C := by
              intro hh
              subst hh
              exact hEq hchild.symm
            rw [List.count_cons, List.count_cons]
            rw [ih _ ht]
            simp [hneC, hEq]

theorem secondary_for_fn_count (bi : List (String × Entry)) (net : DiGraph)
    (fn : String) (C : Entry)
    (hcons : ∀ p ∈ bi, p.2.ident = p.1)
    (hC : dlookup bi C.ident = some C) (hCfn : C.fn ≠ fn) :
    ∀ (primary : List Entry) (sec : List Entry),
      secondary_for_fn bi net fn primary = Except.ok sec →
      sec.count C = (primary.map (fun e =>
        if hasNode net e.ident then (successors net e.ident).count C.ident else 0)).sum := by
  intro primary
  induction primary with
  | nil =>
    intro sec h
    rw [secondary_for_fn] at h
    cases h
    simp
  | cons p rest ih =>
    intro sec h
    rw [secondary_for_fn] at h
    by_cases hn : hasNode net p.ident
    · rw [if_pos hn] at h
      rcases h1 : secondary_children bi fn (successors net p.ident) with msg | l1
      · rw [h1] at h; exact Except.noConfusion h
      · rw [h1] at h
        rcases h2 : secondary_for_fn bi net fn rest with msg | l2
        · rw [h2] at h; exact Except.noConfusion h
        · rw [h2] at h
          cases h
          rw [List.count_append]
          rw [secondary_children_count bi fn C hcons hC hCfn _ l1 h1, ih _ h2]
          simp [hn]
    · rw [if_neg hn] at h
      rw [ih _ h]
      simp [hn]

/-- C2 amended: for every file fn and entry C from another file, the
secondary list computed for fn contains C once per primary entry of fn that
the graph records as citing C — so a successor cited by several primary
entries of the same file is appended several times (the code performs no
membership check), not once as the original claim states. -/
theorem c2_secondary_multiplicity (idx : Indices) (net : DiGraph) (idx2 : Indices)
    (fn : String) (primary sec : List Entry) (C : Entry)
    (hcons : idx.by_ident.all (fun p => p.2.ident == p.1) = true)
    (hC : dlookup idx.by_ident C.ident = some C)
    (hCfn : C.fn ≠ fn)
    (hok : create_indices_2 idx net = Except.ok idx2)
    (hprim : dlookup idx.by_fn fn = some primary)
    (hsec : dlookup idx2.secondary_by_fn fn = some sec) :
    sec.count C = (primary.map (fun e =>
      if hasNode net e.ident then (successors net e.ident).count C.ident else 0)).sum := by
  have hcons2 : ∀ p ∈ idx.by_ident, p.2.ident = p.1 := by
    intro p hp
    have h3 := List.all_eq_true.mp hcons p hp
    exact beq_iff_eq.mp h3
  rw [create_indices_2] at hok
  rcases h1 : secondary_assoc idx.by_ident net idx.by_fn with msg | secs
  · rw [h1] at hok; exact Except.noConfusion hok
  · rw [h1] at hok
    cases hok
    obtain ⟨primary2, hp2, hs2⟩ := secondary_assoc_lookup _ net _ secs fn sec h1 hsec
    rw [hprim] at hp2
    rw [Option.some_inj] at hp2
    subst hp2
    exact secondary_for_fn_count _ net fn C hcons2 hC hCfn _ sec hs2

/-- C2 witness: in the two-file scenario, entB (file f2) is cited by both
primary entries of f1; the theorem applies and its multiplicity in f1's
secondary list is 2 — one occurrence per citing primary entry. -/
theorem c2_witness :
    ([entB, entB] : List Entry).count entB =
      (([entA1, entA2]).map (fun e =>
        if hasNode netAB e.ident then (successors netAB e.ident).count entB.ident
        else 0)).sum := by
  exact c2_secondary_multiplicity (create_indices [entA1, entA2, entB]).1 netAB
    ((create_indices_2 (create_indices [entA1, entA2, entB]).1 netAB).toOption.getD
      ⟨[], [], [], [], []⟩)
    "f1" [entA1, entA2] [entB, entB] entB rfl rfl (by decide) rfl rfl rfl

/-! ### Scanner decomposition: a successful match consumes exactly the span
it reconstructs -/

theorem matchDoiBody_decomp (cs g r1 : List Char) (h : matchDoiBody cs = some (g, r1)) :
    'd' :: 'o' :: 'i' :: ':' :: cs = g ++ r1 := by
  unfold matchDoiBody at h
  split at h
  · exact Option.noConfusion h
  · split at h
    case h_1 cs2 heq =>
      split at h
      · exact Option.noConfusion h
      · injection h with h2
        injection h2 with hg hr
        subst hg; subst hr
        nth_rewrite 1 [← @List.takeWhile_append_dropWhile Char wordDotChar cs]
        rw [heq]
        simp [List.append_assoc, List.takeWhile_append_dropWhile]
    case h_2 =>
      exact Option.noConfusion h

theorem matchArxivBody_decomp (cs g r1 : List Char) (h : matchArxivBody cs = some (g, r1)) :
    'a' :: 'r' :: 'x' :: 'i' :: 'v' :: ':' :: cs = g ++ r1 := by
  unfold matchArxivBody at h
  split at h
  · exact Option.noConfusion h
  · split at h
    case h_1 cs2 heq =>
      split at h
      · exact Option.noConfusion h
      · injection h with h2
        injection h2 with hg hr
        subst hg; subst hr
        nth_rewrite 1 [← @List.takeWhile_append_dropWhile Char Char.isDigit cs]
        rw [heq]
        simp [List.append_assoc, List.takeWhile_append_dropWhile]
    case h_2 =>
      exact Option.noConfusion h

theorem matchPlainBody_decomp (cs g r1 : List Char) (h : matchPlainBody cs = some (g, r1)) :
    cs = g ++ r1 := by
  unfold matchPlainBody at h
  split at h
  · exact Option.noConfusion h
  · injection h with h2
    injection h2 with hg hr
    subst hg; subst hr
    exact (@List.takeWhile_append_dropWhile Char wordHyphenChar cs).symm

theorem matchGroup1_decomp (cs g r1 : List Char) (h : matchGroup1 cs = some (g, r1)) :
    cs = g ++ r1 := by
  unfold matchGroup1 at h
  split at h
  · exact matchDoiBody_decomp _ _ _ h
  · exact matchArxivBody_decomp _ _ _ h
  · exact matchPlainBody_decomp _ _ _ h

theorem matchTail_decomp (r1 : List Char) (numOpt : Option (List Char)) (rest : List Char)
    (h : matchTail r1 = some (numOpt, rest)) :
    r1 = tailSpan numOpt ++ ']' :: rest := by
  unfold matchTail at h
  split at h
  case h_1 cs =>
    split at h
    · exact Option.noConfusion h
    · split at h
      case h_1 rest2 heq =>
        split at h
        · injection h with h2
          injection h2 with hn hr
          subst hn; subst hr
          simp only [tailSpan, List.cons_append]
          nth_rewrite 1 [← @List.takeWhile_append_dropWhile Char Char.isDigit cs]
          rw [heq]
        · exact Option.noConfusion h
      case h_2 =>
        exact Option.noConfusion h
  case h_2 rest2 =>
    split at h
    · injection h with h2
      injection h2 with hn hr
      subst hn; subst hr
      simp [tailSpan]
    · exact Option.noConfusion h
  case h_3 =>
    exact Option.noConfusion h

theorem matchCitationAt_decomp (l : List Char) (m : CiteMatch) (rest : List Char)
    (h : matchCitationAt l = some (m, rest)) :
    l = matchedSpan m ++ rest := by
  unfold matchCitationAt at h
  split at h
  case h_1 cs =>
    split at h
    · exact Option.noConfusion h
    case h_2 g r1 heq1 =>
      split at h
      · exact Option.noConfusion h
      case h_2 numOpt rest2 heq2 =>
        injection h with h2
        injection h2 with hm hr
        subst hm; subst hr
        have hcs : cs = g ++ r1 := matchGroup1_decomp cs g r1 heq1
        have hr1 : r1 = tailSpan numOpt ++ ']' :: rest2 :=
          matchTail_decomp r1 numOpt rest2 heq2
        rw [matchedSpan]
        simp only [List.cons_append, List.append_assoc]
        rw [hcs, hr1]
        simp [List.append_assoc]
  case h_2 =>
    exact Option.noConfusion h

theorem findMatch_decomp :
    ∀ (l pre : List Char) (m : CiteMatch) (rest : List Char),
      findMatch l = some (pre, m, rest) → l = pre ++ matchedSpan m ++ rest := by
  intro l
  induction l with
  | nil => intro pre m rest h; exact Option.noConfusion h
  | cons c cs ih =>
    intro pre m rest h
    rw [findMatch] at h
    rcases hat : matchCitationAt (c :: cs) with _ | ⟨m0, rest0⟩
    · rw [hat] at h
      rcases hfm : findMatch cs with _ | ⟨⟨pre0, m0, rest0⟩⟩
      · rw [hfm] at h; exact Option.noConfusion h
      · rw [hfm] at h
        injection h with h2
        injection h2 with hp h3
        injection h3 with hm hr
        subst hp; subst hm; subst hr
        simp only [List.cons_append, List.append_assoc]
        have h5 := ih pre0 _ _ hfm
        rw [h5, List.append_assoc]
    · rw [hat] at h
      injection h with h2
      injection h2 with hp h3
      injection h3 with hm hr
      subst hp; subst hm; subst hr
      rw [List.nil_append]
      exact matchCitationAt_decomp _ _ _ hat

theorem findMatch_rest_length (l pre : List Char) (m : CiteMatch) (rest : List Char)
    (h : findMatch l = some (pre, m, rest)) : rest.length < l.length := by
  have hd := findMatch_decomp l pre m rest h
  rw [hd, matchedSpan]
  simp [List.length_append]
  omega

/-! ### C8 amended: one boundary per exact double newline, all remaining
newlines spaced out -/

/-- No token of a parsed paragraph carries a newline character. -/
def part_no_newline : DescriptionPart → Prop
  | DescriptionPart.Text s => '\n' ∉ s
  | DescriptionPart.Citation i _ => '\n' ∉ i

theorem normalize_no_newline (t : List Char) : '\n' ∉ normalize t := by
  intro h
  rw [normalize] at h
  obtain ⟨a, _, ha⟩ := List.mem_map.mp h
  by_cases h2 : a = '\n'
  · rw [if_pos h2] at ha
    exact absurd ha (by decide)
  · rw [if_neg h2] at ha
    exact h2 ha

theorem scanF_no_newline :
    ∀ (fuel : Nat) (l : List Char), '\n' ∉ l →
      ∀ part ∈ scanF fuel l, part_no_newline part := by
  intro fuel
  induction fuel with
  | zero =>
    intro l hl part hp
    rw [scanF] at hp
    rw [List.mem_singleton] at hp
    subst hp
    exact hl
  | succ n ih =>
    intro l hl part hp
    rw [scanF] at hp
    rcases hf : findMatch l with _ | ⟨⟨pre, m, rest⟩⟩
    · rw [hf] at hp
      rw [List.mem_singleton] at hp
      subst hp
      exact hl
    · rw [hf] at hp
      have hd := findMatch_decomp l pre m rest hf
      have hpre : '\n' ∉ pre := by
        intro hc
        exact hl (hd ▸ List.mem_append_left _ (List.mem_append_left _ hc))
      have hident : '\n' ∉ m.ident := by
        intro hc
        refine hl (hd ▸ List.mem_append_left _ (List.mem_append_right _ ?_))
        rw [matchedSpan]
        exact List.mem_cons_of_mem _
          (List.mem_append_left _ (List.mem_append_left _ hc))
      have hrest : '\n' ∉ rest := by
        intro hc
        exact hl (hd ▸ List.mem_append_right _ hc)
      rcases List.mem_cons.mp hp with h1 | h1
      · subst h1; exact hpre
      · rcases List.mem_cons.mp h1 with h2 | h2
        · subst h2; exact hident
        · exact ih rest hrest part h2

theorem splitNN_length : ∀ (l : List Char), (splitNN l).length = countNN l + 1
  | [] => by simp [splitNN, countNN]
  | [c] => by simp [splitNN, countNN]
  | c1 :: c2 :: rest => by
    rw [splitNN, countNN]
    by_cases h : c1 = '\n' ∧ c2 = '\n'
    · rw [if_pos h, if_pos h]
      simp [splitNN_length rest]
    · rw [if_neg h, if_neg h]
      have ih := splitNN_length (c2 :: rest)
      rcases hs : splitNN (c2 :: rest) with _ | ⟨p, ps⟩
      · rw [hs] at ih
        simp at ih
      · rw [hs] at ih
        simp at ih ⊢
        omega

theorem parse_paragraph_no_newline (t : List Char) :
    ∀ part ∈ (parse_paragraph t).parts, part_no_newline part := by
  intro part hp
  exact scanF_no_newline ((normalize t).length + 1) (normalize t)
    (normalize_no_newline t) part hp

/-- C8 amended: parsing splits a description at every leftmost
non-overlapping occurrence of an exact double newline — so a run of k
newlines yields k / 2 boundaries rather than one — and every newline
remaining inside a paragraph is replaced by a space before tokenization, so
no token of any resulting paragraph contains a newline. -/
theorem c8_split_and_space (d : List Char) :
    (parse_description d).paragraphs.length = countNN d + 1 ∧
      ∀ p ∈ (parse_description d).paragraphs, ∀ part ∈ p.parts, part_no_newline part := by
  constructor
  · rw [parse_description]
    simp [splitNN_length d]
  · intro p hp part hpart
    rw [parse_description] at hp
    obtain ⟨t, _, ht⟩ := List.mem_map.mp hp
    rw [← ht] at hpart
    exact parse_paragraph_no_newline t part hpart

/-- C8 witness: the amended statement instantiated at the concrete text
a newline b double-newline c (one single newline, one double newline). -/
theorem c8_witness :
    (parse_description ("a\nb\n\nc".data)).paragraphs.length = countNN ("a\nb\n\nc".data) + 1 ∧
      ∀ p ∈ (parse_description ("a\nb\n\nc".data)).paragraphs,
        ∀ part ∈ p.parts, part_no_newline part := by
  exact c8_split_and_space ("a\nb\n\nc".data)

/-! ### C10 amended: the scan is lossless whenever every citation number
digit string round-trips through int and str -/

theorem scanF_render :
    ∀ (fuel : Nat) (l : List Char), l.length < fuel →
      (∀ ds ∈ citeNumsF fuel l, (Nat.repr (listToNat ds)).data = ds) →
      ((scanF fuel l).map partMarkdown).flatten = l := by
  intro fuel
  induction fuel with
  | zero =>
    intro l hl
    exact absurd hl (Nat.not_lt_zero _)
  | succ n ih =>
    intro l hl hnum
    rw [scanF]
    rcases hf : findMatch l with _ | ⟨⟨pre, m, rest⟩⟩
    · simp [partMarkdown]
    · have hd := findMatch_decomp l pre m rest hf
      have hlen : rest.length < n := by
        have h2 := findMatch_rest_length l pre m rest hf
        omega
      have hcn : citeNumsF (n + 1) l = m.numStr.toList ++ citeNumsF n rest := by
        simp only [citeNumsF, hf]
      have hnum2 : ∀ ds ∈ citeNumsF n rest, (Nat.repr (listToNat ds)).data = ds := by
        intro ds hds
        exact hnum ds (hcn ▸ List.mem_append_right _ hds)
      have hspan : partMarkdown (DescriptionPart.Citation m.ident (m.numStr.map listToNat))
          = matchedSpan m := by
        rcases hns : m.numStr with _ | ds
        · simp [partMarkdown, matchedSpan, tailSpan, hns]
        · have hds : (Nat.repr (listToNat ds)).data = ds := by
            refine hnum ds (hcn ▸ List.mem_append_left _ ?_)
            simp [hns]
          simp [partMarkdown, matchedSpan, tailSpan, hns, hds]
      simp only [List.map_cons, List.flatten_cons]
      rw [hspan, ih rest hlen hnum2, hd]
      simp [partMarkdown, List.append_assoc]

/-- C10 amended: concatenating the rendered forms of the tokens of
parse_paragraph yields the input with newlines replaced by spaces whenever
every citation-number digit string of the (normalized) input round-trips
through Python int and str — that is, carries no leading zeros.  (The
counterexample shows the round trip genuinely fails without that
condition.) -/
theorem c10_render_roundtrip (t : List Char)
    (h : ∀ ds ∈ cite_nums (normalize t), (Nat.repr (listToNat ds)).data = ds) :
    paragraphMarkdown (parse_paragraph t) = normalize t := by
  exact scanF_render ((normalize t).length + 1) (normalize t) (Nat.lt_succ_self _) h

/-- C10 witness: the round-trip theorem applied to a concrete text whose
single citation number has no leading zero. -/
theorem c10_witness :
    paragraphMarkdown (parse_paragraph ("x [a=1] y\nz".data)) =
      normalize ("x [a=1] y\nz".data) := by
  exact c10_render_roundtrip ("x [a=1] y\nz".data) (by decide)

end Gitbib

